import Mathlib

/-!
Verification of the gallery core of this repository: the filename parser
(`parseFilename`), the per-category grouping (`groupByCategory`), the date
heuristic (`parseDateFromDescription`) and the year/month timeline grouping
(`groupByYearMonth`) from `js/gallery.js`.  JavaScript strings are embedded
as `List Char`; each definition mirrors the corresponding source function.
-/

namespace Gallery

/-- JavaScript strings are modelled as lists of characters. -/
abbrev Str := List Char

/-- Helper turning a Lean string literal into the `List Char` model. -/
def str (s : String) : Str := s.toList

/-- Characters matched by the JavaScript regular-expression class `\s`
(ECMAScript WhiteSpace and LineTerminator code points). -/
def isJsWs (c : Char) : Bool :=
  c == ' ' || c == '\t' || c == '\n' || c == '\r' ||
  c.toNat == 11 || c.toNat == 12 || c.toNat == 160 || c.toNat == 5760 ||
  (decide (8192 ≤ c.toNat) && decide (c.toNat ≤ 8202)) ||
  c.toNat == 8232 || c.toNat == 8233 || c.toNat == 8239 || c.toNat == 8287 ||
  c.toNat == 12288 || c.toNat == 65279

/-- ECMAScript line terminators, the characters the regular-expression
metacharacter `.` does not match. -/
def isLineTerm (c : Char) : Bool :=
  c == '\n' || c == '\r' || c.toNat == 8232 || c.toNat == 8233

/-- Model of `String.prototype.toLowerCase` on the ASCII range (the category
keys and month abbreviations the source compares against are ASCII). -/
def lowerStr (s : Str) : Str := s.map Char.toLower

/-- Model of `String.prototype.trim`: drop leading and trailing whitespace. -/
def trimStr (s : Str) : Str :=
  ((s.dropWhile isJsWs).reverse.dropWhile isJsWs).reverse

/-- Model of `str.split('_')` for the single-character delimiter used by
`parseFilename` (gallery.js line 81). -/
def splitU : Str → List Str
  | [] => [[]]
  | c :: r =>
    if c = '_' then [] :: splitU r
    else
      match splitU r with
      | [] => [[c]]
      | p :: ps => (c :: p) :: ps

/-- Model of `arr.join('_')`, used to rejoin the description segments
(gallery.js line 90). -/
def joinU : List Str → Str
  | [] => []
  | [x] => x
  | x :: xs => x ++ '_' :: joinU xs

/-- Maximal decimal-digit prefix value, `none` when there is no digit:
the digit-reading core of `parseInt(s, 10)`. -/
def digitsVal (s : Str) : Option Nat :=
  let ds := s.takeWhile Char.isDigit
  if ds = [] then none
  else some (ds.foldl (fun n c => n * 10 + (c.toNat - 48)) 0)

/-- Model of JavaScript `parseInt(s, 10)`: skip leading whitespace, read an
optional sign and then a maximal run of decimal digits; `none` models `NaN`
(no digit found). -/
def jsParseInt (s : Str) : Option Int :=
  match s.dropWhile isJsWs with
  | '-' :: r => (digitsVal r).map (fun n => -(n : Int))
  | '+' :: r => (digitsVal r).map (fun n => (n : Int))
  | r => (digitsVal r).map (fun n => (n : Int))

/-- The recognized image-file extensions of the regular expression
`\.(jpg|jpeg|png|gif|webp)$` in gallery.js line 78, with their leading dot,
in alternation order. -/
def knownExts : List Str :=
  [str ".jpg", str ".jpeg", str ".png", str ".gif", str ".webp"]

/-- Model of `filename.replace(/\.(jpg|jpeg|png|gif|webp)$/i, '')`
(gallery.js line 78): when the lower-cased filename ends in a recognized
dotted extension that suffix is removed, otherwise the string is unchanged. -/
def stripExt (f : Str) : Str :=
  match knownExts.find? (fun e => e.isSuffixOf (lowerStr f)) with
  | some e => f.take (f.length - e.length)
  | none => f

/-- The closed category enumeration of the `CATEGORIES` configuration object
(gallery.js lines 18-39). -/
inductive Cat where
  | conference
  | activity
  | lablife
  | campus
  deriving DecidableEq, Repr

/-- The key string of a category, as it appears in filenames and as the
property name of the `CATEGORIES` object. -/
def Cat.key : Cat → Str
  | .conference => str "conference"
  | .activity => str "activity"
  | .lablife => str "lablife"
  | .campus => str "campus"

/-- Own-key lookup on the category configuration: the enumeration member a
string names, `none` when the string is none of the four own property keys.
This is NOT the truthiness test of gallery.js line 92 (see
`categoriesTruthy`); it is the test that decides whether the bucket access
`grouped[parsed.category]` in `groupByCategory` finds one of the four own
array properties of the fresh `grouped` object — any other string reaches a
property inherited from `Object.prototype` (or `undefined`), whose `push` is
not a function. -/
def catOfKey (s : Str) : Option Cat :=
  if s = str "conference" then some .conference
  else if s = str "activity" then some .activity
  else if s = str "lablife" then some .lablife
  else if s = str "campus" then some .campus
  else none

/-- Model of the truthiness test `CATEGORIES[category]` (gallery.js line 92).
`CATEGORIES` is a plain object literal, so property lookup consults the
prototype chain: besides the four own keys, every own property of
`Object.prototype` yields a truthy value (a built-in function, or
`Object.prototype` itself through the `__proto__` accessor).  Those inherited
keys are constructor, __proto__, hasOwnProperty, isPrototypeOf,
propertyIsEnumerable, toLocaleString, toString, valueOf and the four Annex B
accessor-definition methods.  Only the all-lowercase ones ("constructor" and
"__proto__") survive the preceding `toLowerCase()`, and of those only
"constructor" can be a first split segment (segments contain no underscore),
but the lookup itself is modelled for every string. -/
def categoriesTruthy (s : Str) : Bool :=
  s == str "conference" || s == str "activity" || s == str "lablife" ||
  s == str "campus" ||
  s == str "constructor" || s == str "__proto__" ||
  s == str "hasOwnProperty" || s == str "isPrototypeOf" ||
  s == str "propertyIsEnumerable" || s == str "toLocaleString" ||
  s == str "toString" || s == str "valueOf" ||
  s == str "__defineGetter__" || s == str "__defineSetter__" ||
  s == str "__lookupGetter__" || s == str "__lookupSetter__"

/-- The two diagnostic rejection kinds of `parseFilename` (its two
`console.warn` + `return null` paths). -/
inductive RejectReason where
  | malformedFilename
  | unknownCategory
  deriving DecidableEq, Repr

/-- The record `parseFilename` returns on success (gallery.js lines 97-102).
`order` is `Option Int`: `none` models the `NaN` that `parseInt` yields on a
non-numeric segment.  `category` is the lower-cased first segment as the
source stores it — a string, because the truthiness test also lets the
prototype-inherited keys of `Object.prototype` through, not only the four
enumeration keys. -/
structure ParsedItem where
  filename : Str
  category : Str
  order : Option Int
  description : Str
  deriving DecidableEq, Repr

/-- Body of `parseFilename` after the extension has been stripped
(gallery.js lines 81-102): split on the delimiter, reject fewer than three
segments, lower-case and look up the category, parse the order, rejoin the
description segments. -/
def parseAfterStrip (filename nameWithoutExt : Str) :
    Except RejectReason ParsedItem :=
  let parts := splitU nameWithoutExt
  if parts.length < 3 then .error .malformedFilename
  else
    let category := lowerStr (parts.headD [])
    let order := jsParseInt (parts.getD 1 [])
    let description := joinU (parts.drop 2)
    if categoriesTruthy category then .ok ⟨filename, category, order, description⟩
    else .error .unknownCategory

/-- Model of `parseFilename` (gallery.js lines 76-103) with the rejection
reason made explicit (the source logs a `console.warn` and returns `null`). -/
def parseFilenameE (filename : Str) : Except RejectReason ParsedItem :=
  parseAfterStrip filename (stripExt filename)

/-- Model of `parseFilename` as the caller sees it: the parsed record, or
`none` for either rejection. -/
def parseFilename (filename : Str) : Option ParsedItem :=
  (parseFilenameE filename).toOption

/-- The `MONTH_NAMES` array of the timeline code. -/
def MONTH_NAMES : List Str :=
  [str "Jan", str "Feb", str "Mar", str "Apr", str "May", str "Jun",
   str "Jul", str "Aug", str "Sep", str "Oct", str "Nov", str "Dec"]

/-- The fixed 12-entry `MONTH_MAP` lookup (jan..dec mapped to 0..11);
`none` models the `undefined` an unrecognized abbreviation yields. -/
def monthFromAbbrev : Str → Option Nat
  | ['j', 'a', 'n'] => some 0
  | ['f', 'e', 'b'] => some 1
  | ['m', 'a', 'r'] => some 2
  | ['a', 'p', 'r'] => some 3
  | ['m', 'a', 'y'] => some 4
  | ['j', 'u', 'n'] => some 5
  | ['j', 'u', 'l'] => some 6
  | ['a', 'u', 'g'] => some 7
  | ['s', 'e', 'p'] => some 8
  | ['o', 'c', 't'] => some 9
  | ['n', 'o', 'v'] => some 10
  | ['d', 'e', 'c'] => some 11
  | _ => none

/-- The tail `\s*(.+)$` of the date regular expression applied after the
literal dash: greedily skip whitespace, then `.+` must take all remaining
characters, which requires a non-empty remainder free of line terminators;
when everything after the dash is whitespace, backtracking leaves exactly
the last character for `.+` provided it is not a line terminator. -/
def matchTail (rest : Str) : Option Str :=
  let t := rest.dropWhile isJsWs
  match t with
  | [] =>
    match rest.getLast? with
    | none => none
    | some c => if isLineTerm c then none else some [c]
  | _ :: _ => if t.any isLineTerm then none else some t

/-- Model of `description.match(/^([A-Za-z]{3})\s+(\d{4})\s*-\s*(.+)$/)`:
three ASCII letters, at least one whitespace character, exactly four digits,
optional whitespace, a literal dash, then the tail `\s*(.+)$`.  Returns the
three capture groups. -/
def matchDateRegex (s : Str) : Option (Str × Str × Str) :=
  match s with
  | m1 :: m2 :: m3 :: rest =>
    if m1.isAlpha && m2.isAlpha && m3.isAlpha then
      match rest.takeWhile isJsWs, rest.dropWhile isJsWs with
      | [], _ => none
      | _ :: _, d1 :: d2 :: d3 :: d4 :: r2 =>
        if d1.isDigit && d2.isDigit && d3.isDigit && d4.isDigit then
          match r2.dropWhile isJsWs with
          | h :: r4 =>
            if h = '-' then
              (matchTail r4).map (fun ev => ([m1, m2, m3], ([d1, d2, d3, d4], ev)))
            else none
          | [] => none
        else none
      | _ :: _, _ => none
    else none
  | _ => none

/-- The date record `parseDateFromDescription` returns (timeline code):
year, month index 0-11, display month name and the trimmed event text. -/
structure DateInfo where
  year : Int
  month : Nat
  monthName : Str
  event : Str
  deriving DecidableEq, Repr

/-- Model of `parseDateFromDescription(description)`: match the date pattern,
lower-case the month abbreviation, resolve it through the fixed `MONTH_MAP`
lookup (an unrecognized abbreviation yields `none`), and trim the event. -/
def parseDateFromDescription (description : Str) : Option DateInfo :=
  match matchDateRegex description with
  | none => none
  | some (ms, ys, ev) =>
    let monthStr := lowerStr ms
    let year := (jsParseInt ys).getD 0
    let event := trimStr ev
    match monthFromAbbrev monthStr with
    | none => none
    | some month => some ⟨year, month, MONTH_NAMES.getD month [], event⟩

/-- The comparator `(a, b) => a.order - b.order` as `Array.prototype.sort`
consumes it: a `NaN` comparator value (either order non-numeric) is coerced
to `+0`, that is, "equal". -/
def cmpOrder (a b : ParsedItem) : Int :=
  match a.order, b.order with
  | some x, some y => x - y
  | _, _ => 0

/-- Stable insertion of an element coming earlier in the input into an
already sorted list: it is placed before the first element it does not
compare strictly greater than. -/
def insertByOrder (x : ParsedItem) : List ParsedItem → List ParsedItem
  | [] => [x]
  | y :: l => if cmpOrder x y ≤ 0 then x :: y :: l else y :: insertByOrder x l

/-- Model of `grouped[cat].sort((a, b) => a.order - b.order)` (gallery.js
line 128): `Array.prototype.sort` is stable and orders by the comparator,
realized here as a stable insertion sort. -/
def sortByOrder : List ParsedItem → List ParsedItem
  | [] => []
  | x :: l => insertByOrder x (sortByOrder l)

/-- The grouped buckets, one sequence per own key of the `grouped` object
(which `groupByCategory` initializes to the four enumeration categories). -/
abbrev CatMap := Cat → List ParsedItem

/-- The uncaught exception of the grouping loop: `grouped[parsed.category]`
for a category that is not one of the four own keys yields a value inherited
from `Object.prototype` (or `undefined`), and calling `.push` on it throws a
`TypeError`. -/
inductive JsError where
  | typeError
  deriving DecidableEq, Repr

/-- One step of the parse-and-group loop of `groupByCategory` (gallery.js
lines 119-124), threading the exception: a rejected filename leaves the
buckets unchanged; an accepted one is pushed onto its category's own bucket
when the category is one of the four own keys, and otherwise the push
`grouped[parsed.category].push(parsed)` throws a `TypeError` that aborts the
whole loop (and every later step propagates the error). -/
def catStep (acc : Except JsError CatMap) (filename : Str) :
    Except JsError CatMap :=
  match acc with
  | .error e => .error e
  | .ok g =>
    match parseFilename filename with
    | none => .ok g
    | some p =>
      match catOfKey p.category with
      | some c => .ok (fun c2 => if c2 = c then g c2 ++ [p] else g c2)
      | none => .error .typeError

/-- The grouped buckets of `groupByCategory` before sorting: every own
category key initialized to the empty list, then each image pushed in
encounter order, with the first prototype-inherited category aborting the
loop with a `TypeError`. -/
def rawGroupE (images : List Str) : Except JsError CatMap :=
  images.foldl catStep (.ok (fun _ => []))

/-- Model of `groupByCategory(images)` (gallery.js lines 110-132): the raw
buckets with each own category bucket sorted by `order`, or the uncaught
`TypeError` when an accepted filename's category is no own key. -/
def groupByCategory (images : List Str) : Except JsError CatMap :=
  match rawGroupE images with
  | .error e => .error e
  | .ok g => .ok (fun c => sortByOrder (g c))

/-- The encounter-order bucket of a category: the accepted items whose
category names that enumeration key, in input order.  When the grouping
returns at all, this is exactly its pre-sort bucket (`rawGroupE_eq_ok`). -/
def rawBucket (images : List Str) (c : Cat) : List ParsedItem :=
  (images.filterMap parseFilename).filter (fun p => p.category == Cat.key c)

/-- The record pushed onto a timeline bucket: the parsed item together with
its `dateInfo` (the object spread `{...parsed, dateInfo}`). -/
structure TimelineEntry where
  item : ParsedItem
  dateInfo : DateInfo
  deriving DecidableEq, Repr

/-- One step of the loop of `groupByYearMonth`: filenames that fail to parse
or whose description yields no date leave the buckets unchanged; otherwise
the entry is pushed onto the bucket of its year and month. -/
def timelineStep (g : Int → Nat → List TimelineEntry) (filename : Str) :
    Int → Nat → List TimelineEntry :=
  match parseFilename filename with
  | none => g
  | some p =>
    match parseDateFromDescription p.description with
    | none => g
    | some d =>
      fun y m => if y = d.year ∧ m = d.month then g y m ++ [⟨p, d⟩] else g y m

/-- Model of `groupByYearMonth(images)` (timeline code): buckets keyed by
year and month index, each holding its entries in encounter order. -/
def groupByYearMonth (images : List Str) : Int → Nat → List TimelineEntry :=
  images.foldl timelineStep (fun _ _ => [])

/-- The input list of the end-to-end scenario of the specification. -/
def C1images : List Str :=
  [str "conference_02_B.jpg", str "conference_01_A.jpg",
   str "bogus.jpg", str "weird_x_Y.jpg"]

/-- Ascending order between two items, read on their numeric `order`
fields: whenever both are numeric the first is at most the second. -/
def ordLe (a b : ParsedItem) : Prop :=
  ∀ u v : Int, a.order = some u → b.order = some v → u ≤ v

/-- The timeline entry a single filename contributes to the bucket of year
`y` and month `m`, if any: the filename must parse, its description must
yield a date, and that date must be the bucket's. -/
def timelinePick (y : Int) (m : Nat) (filename : Str) : Option TimelineEntry :=
  match parseFilename filename with
  | none => none
  | some p =>
    match parseDateFromDescription p.description with
    | none => none
    | some d => if y = d.year ∧ m = d.month then some ⟨p, d⟩ else none

/-! ## Basic lemmas about the string operations -/

lemma splitU_ne_nil (s : Str) : splitU s ≠ [] := by
  induction s with
  | nil => simp [splitU]
  | cons c r ih =>
    simp only [splitU]
    split
    · simp
    · cases h : splitU r with
      | nil => exact absurd h ih
      | cons p ps => simp [h]

lemma joinU_splitU (s : Str) : joinU (splitU s) = s := by
  induction s with
  | nil => rfl
  | cons c r ih =>
    simp only [splitU]
    split
    · rename_i hc
      cases h : splitU r with
      | nil => exact absurd h (splitU_ne_nil r)
      | cons p ps =>
        subst hc
        rw [h] at ih
        simpa [joinU] using ih
    · cases h : splitU r with
      | nil => exact absurd h (splitU_ne_nil r)
      | cons p ps =>
        rw [h] at ih
        cases ps with
        | nil => simpa [joinU] using congrArg (c :: ·) ih
        | cons q qs => simpa [joinU] using congrArg (c :: ·) ih

lemma splitU_append_of_not_mem {a : Str} (b : Str) (h : '_' ∉ a) :
    splitU (a ++ '_' :: b) = a :: splitU b := by
  induction a with
  | nil => simp [splitU]
  | cons c a ih =>
    have hc : c ≠ '_' := fun hc => h (hc ▸ List.mem_cons_self c a)
    have ha : '_' ∉ a := fun ha => h (List.mem_cons_of_mem c ha)
    simp only [List.cons_append, splitU, if_neg (fun hh => hc hh)]
    rw [show a.append ('_' :: b) = a ++ '_' :: b from rfl, ih ha]

lemma lowerStr_key (c : Cat) : lowerStr (Cat.key c) = Cat.key c := by
  cases c <;> decide

lemma catOfKey_key (c : Cat) : catOfKey (Cat.key c) = some c := by
  cases c <;> rfl

lemma underscore_not_mem_key (c : Cat) : '_' ∉ Cat.key c := by
  cases c <;> decide

lemma eq_key_of_catOfKey {s : Str} {c : Cat} (h : catOfKey s = some c) :
    s = Cat.key c := by
  unfold catOfKey at h
  split_ifs at h with h1 h2 h3 h4
  · injection h with hh
    subst hh
    exact h1
  · injection h with hh
    subst hh
    exact h2
  · injection h with hh
    subst hh
    exact h3
  · injection h with hh
    subst hh
    exact h4

lemma key_inj {c1 c2 : Cat} (h : Cat.key c1 = Cat.key c2) : c1 = c2 := by
  cases c1 <;> cases c2 <;> revert h <;> decide

lemma categoriesTruthy_key (c : Cat) : categoriesTruthy (Cat.key c) = true := by
  cases c <;> decide

/-! ## Lemmas about the stable sort -/

lemma cmpOrder_total (a b : ParsedItem) : cmpOrder a b ≤ 0 ∨ cmpOrder b a ≤ 0 := by
  unfold cmpOrder
  cases a.order <;> cases b.order <;> (simp; try omega)

lemma cmpOrder_eq_zero_of_eq {a b : ParsedItem} {v : Int}
    (ha : a.order = some v) (hb : b.order = some v) : cmpOrder a b = 0 := by
  unfold cmpOrder
  rw [ha, hb]
  exact Int.sub_self v

lemma mem_insertByOrder {x a : ParsedItem} {l : List ParsedItem} :
    a ∈ insertByOrder x l ↔ a = x ∨ a ∈ l := by
  induction l with
  | nil => simp [insertByOrder]
  | cons y l ih =>
    simp only [insertByOrder]
    split
    · simp [List.mem_cons]
    · simp only [List.mem_cons, ih]
      tauto

lemma mem_sortByOrder {a : ParsedItem} {l : List ParsedItem} :
    a ∈ sortByOrder l ↔ a ∈ l := by
  induction l with
  | nil => simp [sortByOrder]
  | cons x l ih => simp [sortByOrder, mem_insertByOrder, ih]

lemma length_insertByOrder (x : ParsedItem) (l : List ParsedItem) :
    (insertByOrder x l).length = l.length + 1 := by
  induction l with
  | nil => rfl
  | cons y l ih =>
    simp only [insertByOrder]
    split
    · simp
    · simp [ih]

lemma length_sortByOrder (l : List ParsedItem) :
    (sortByOrder l).length = l.length := by
  induction l with
  | nil => rfl
  | cons x l ih => simp [sortByOrder, length_insertByOrder, ih]

lemma chain'_insertByOrder {x : ParsedItem} {l : List ParsedItem}
    (h : List.Chain' (fun a b => cmpOrder a b ≤ 0) l) :
    List.Chain' (fun a b => cmpOrder a b ≤ 0) (insertByOrder x l) := by
  induction l with
  | nil => simp [insertByOrder]
  | cons y l ih =>
    simp only [insertByOrder]
    split
    · rename_i hxy
      exact List.chain'_cons.mpr ⟨hxy, h⟩
    · rename_i hxy
      have hyx : cmpOrder y x ≤ 0 := (cmpOrder_total x y).resolve_left hxy
      have h' := List.chain'_cons'.mp h
      refine List.chain'_cons'.mpr ⟨?_, ih h'.2⟩
      intro z hz
      cases l with
      | nil =>
        simp [insertByOrder] at hz
        subst hz
        exact hyx
      | cons w l =>
        simp only [insertByOrder] at hz
        split at hz
        · simp at hz
          subst hz
          exact hyx
        · simp at hz
          subst hz
          exact h'.1 w (by simp)

lemma chain'_sortByOrder (l : List ParsedItem) :
    List.Chain' (fun a b => cmpOrder a b ≤ 0) (sortByOrder l) := by
  induction l with
  | nil => simp [sortByOrder]
  | cons x l ih => exact chain'_insertByOrder ih

lemma ordLe_of_cmpOrder {a b : ParsedItem} (h : cmpOrder a b ≤ 0) : ordLe a b := by
  intro u v hu hv
  have he : cmpOrder a b = u - v := by
    unfold cmpOrder
    rw [hu, hv]
  omega

lemma ordLe_trans {a b c : ParsedItem} (hb : b.order.isSome)
    (h1 : ordLe a b) (h2 : ordLe b c) : ordLe a c := by
  intro u w hu hw
  obtain ⟨v, hv⟩ := Option.isSome_iff_exists.mp hb
  exact le_trans (h1 u v hu hv) (h2 v w hv hw)

lemma pairwise_ordLe_of_chain' :
    ∀ l : List ParsedItem, (∀ a ∈ l, a.order.isSome) →
      List.Chain' (fun a b => cmpOrder a b ≤ 0) l → List.Pairwise ordLe l
  | [], _, _ => List.Pairwise.nil
  | [x], _, _ => by simp
  | x :: y :: l, hs, hc => by
    rw [List.chain'_cons] at hc
    have tail := pairwise_ordLe_of_chain' (y :: l)
      (fun a ha => hs a (List.mem_cons_of_mem x ha)) hc.2
    refine List.Pairwise.cons (fun z hz => ?_) tail
    have hxy : ordLe x y := ordLe_of_cmpOrder hc.1
    rcases List.mem_cons.mp hz with rfl | hz
    · exact hxy
    · exact ordLe_trans (hs y (by simp)) hxy
        ((List.pairwise_cons.mp tail).1 z hz)

lemma filter_insertByOrder_of_ne {v : Int} {x : ParsedItem} {l : List ParsedItem}
    (h : x.order ≠ some v) :
    (insertByOrder x l).filter (fun a => a.order == some v) =
      l.filter (fun a => a.order == some v) := by
  induction l with
  | nil => simp [insertByOrder, List.filter_cons, h]
  | cons y l ih =>
    simp only [insertByOrder]
    split
    · simp [List.filter_cons, h]
    · simp only [List.filter_cons, ih]

lemma filter_insertByOrder_of_eq {v : Int} {x : ParsedItem} {l : List ParsedItem}
    (h : x.order = some v) :
    (insertByOrder x l).filter (fun a => a.order == some v) =
      x :: l.filter (fun a => a.order == some v) := by
  induction l with
  | nil => simp [insertByOrder, List.filter_cons, h]
  | cons y l ih =>
    simp only [insertByOrder]
    split
    · simp [List.filter_cons, h]
    · rename_i hxy
      have hy : y.order ≠ some v := by
        intro hy
        exact hxy (by rw [cmpOrder_eq_zero_of_eq h hy])
      simp only [List.filter_cons, ih]
      simp [hy]

lemma filter_sortByOrder (v : Int) (l : List ParsedItem) :
    (sortByOrder l).filter (fun a => a.order == some v) =
      l.filter (fun a => a.order == some v) := by
  induction l with
  | nil => rfl
  | cons x l ih =>
    by_cases h : x.order = some v
    · rw [sortByOrder, filter_insertByOrder_of_eq h, ih,
        List.filter_cons, if_pos (by simp [h])]
    · rw [sortByOrder, filter_insertByOrder_of_ne h, ih,
        List.filter_cons, if_neg (by simp [h])]

/-! ## Characterization of the grouping folds -/

lemma foldl_catStep_error (images : List Str) (e : JsError) :
    images.foldl catStep (.error e) = .error e := by
  induction images with
  | nil => rfl
  | cons f fs ih =>
    rw [List.foldl_cons]
    exact ih

lemma foldl_catStep_ok (images : List Str) (g0 : CatMap)
    (h : ∀ p ∈ images.filterMap parseFilename, (catOfKey p.category).isSome) :
    images.foldl catStep (.ok g0) =
      .ok (fun c => g0 c ++ (images.filterMap parseFilename).filter
        (fun p => p.category == Cat.key c)) := by
  induction images generalizing g0 with
  | nil => simp
  | cons f fs ih =>
    rw [List.foldl_cons]
    cases hp : parseFilename f with
    | none =>
      rw [show catStep (.ok g0) f = .ok g0 from by simp [catStep, hp]]
      rw [ih g0 (fun p hm => h p (by rw [List.filterMap_cons, hp]; exact hm))]
      simp [List.filterMap_cons, hp]
    | some p =>
      have hpm : p ∈ (f :: fs).filterMap parseFilename := by
        rw [List.filterMap_cons, hp]
        exact List.mem_cons_self p _
      obtain ⟨c0, hc0⟩ := Option.isSome_iff_exists.mp (h p hpm)
      have hkey : p.category = Cat.key c0 := eq_key_of_catOfKey hc0
      rw [show catStep (.ok g0) f =
          .ok (fun c2 => if c2 = c0 then g0 c2 ++ [p] else g0 c2) from by
        simp [catStep, hp, hc0]]
      rw [ih _ (fun q hm => h q (by
        rw [List.filterMap_cons, hp]
        exact List.mem_cons_of_mem p hm))]
      refine congrArg Except.ok (funext fun c => ?_)
      by_cases hc : c = c0
      · subst hc
        simp [List.filterMap_cons, hp, List.filter_cons, hkey]
      · have hne : (p.category == Cat.key c) = false := by
          simp [hkey]
          exact fun hh => hc (key_inj hh).symm
        simp [List.filterMap_cons, hp, List.filter_cons, hne, hc]

lemma foldl_catStep_ok_inv (images : List Str) (g0 : CatMap) {g : CatMap}
    (h : images.foldl catStep (.ok g0) = .ok g) :
    ∀ p ∈ images.filterMap parseFilename, (catOfKey p.category).isSome := by
  induction images generalizing g0 with
  | nil => simp
  | cons f fs ih =>
    rw [List.foldl_cons] at h
    cases hp : parseFilename f with
    | none =>
      rw [show catStep (.ok g0) f = .ok g0 from by simp [catStep, hp]] at h
      intro p hm
      rw [List.filterMap_cons, hp] at hm
      exact ih g0 h p hm
    | some p0 =>
      cases hc : catOfKey p0.category with
      | none =>
        rw [show catStep (.ok g0) f = .error .typeError from by
          simp [catStep, hp, hc]] at h
        rw [foldl_catStep_error] at h
        exact absurd h (by simp)
      | some c0 =>
        rw [show catStep (.ok g0) f =
            .ok (fun c2 => if c2 = c0 then g0 c2 ++ [p0] else g0 c2) from by
          simp [catStep, hp, hc]] at h
        intro p hm
        rw [List.filterMap_cons, hp] at hm
        rcases List.mem_cons.mp hm with rfl | hm
        · simp [hc]
        · exact ih _ h p hm

lemma groupByCategory_eq_ok (images : List Str)
    (h : ∀ p ∈ images.filterMap parseFilename, (catOfKey p.category).isSome) :
    groupByCategory images = .ok (fun c => sortByOrder (rawBucket images c)) := by
  unfold groupByCategory rawGroupE
  rw [foldl_catStep_ok images _ h]
  rfl

lemma groupByCategory_ok_inv {images : List Str} {g : CatMap}
    (h : groupByCategory images = .ok g) :
    (∀ p ∈ images.filterMap parseFilename, (catOfKey p.category).isSome) ∧
      ∀ c : Cat, g c = sortByOrder (rawBucket images c) := by
  unfold groupByCategory at h
  cases hr : rawGroupE images with
  | error e =>
    rw [hr] at h
    exact absurd h (by simp)
  | ok graw =>
    have hvalid := foldl_catStep_ok_inv images (fun _ => [])
      (show images.foldl catStep (.ok (fun _ => [])) = .ok graw from hr)
    refine ⟨hvalid, fun c => ?_⟩
    have hchar := groupByCategory_eq_ok images hvalid
    unfold groupByCategory at hchar
    rw [hr] at h hchar
    injection h with hh
    injection hchar with hh2
    rw [← hh, hh2]

lemma foldl_timelineStep (images : List Str)
    (g : Int → Nat → List TimelineEntry) (y : Int) (m : Nat) :
    (images.foldl timelineStep g) y m =
      g y m ++ images.filterMap (timelinePick y m) := by
  induction images generalizing g with
  | nil => simp
  | cons f fs ih =>
    rw [List.foldl_cons, ih]
    cases hp : parseFilename f with
    | none => simp [timelineStep, timelinePick, hp]
    | some p =>
      cases hd : parseDateFromDescription p.description with
      | none => simp [timelineStep, timelinePick, hp, hd]
      | some d =>
        by_cases hym : y = d.year ∧ m = d.month
        · simp [timelineStep, timelinePick, hp, hd, hym]
        · simp [timelineStep, timelinePick, hp, hd, hym]

lemma groupByYearMonth_eq (images : List Str) (y : Int) (m : Nat) :
    groupByYearMonth images y m = images.filterMap (timelinePick y m) := by
  simpa using foldl_timelineStep images (fun _ _ => []) y m

lemma date_of_mem_groupByYearMonth {images : List Str} {y : Int} {m : Nat}
    {e : TimelineEntry} (h : e ∈ groupByYearMonth images y m) :
    parseDateFromDescription e.item.description = some e.dateInfo := by
  rw [groupByYearMonth_eq] at h
  obtain ⟨f, _, hf⟩ := List.mem_filterMap.mp h
  unfold timelinePick at hf
  split at hf
  · exact absurd hf (by simp)
  · rename_i p hp
    split at hf
    · exact absurd hf (by simp)
    · rename_i d hd
      split at hf
      · injection hf with hh
        subst hh
        exact hd
      · exact absurd hf (by simp)

/-! ## The claims -/

/-- C2: every filename whose extension-stripped name splits into fewer than
three delimiter-separated segments is rejected by `parseFilename` with the
`MalformedFilename` signal, never turned into a parsed record. -/
theorem claim_C2_malformed_rejected (f : Str)
    (h : (splitU (stripExt f)).length < 3) :
    parseFilenameE f = .error .malformedFilename := by
  unfold parseFilenameE parseAfterStrip
  simp [h]

/-- Witness for C2 at the concrete filename of the end-to-end scenario. -/
theorem claim_C2_witness :
    (splitU (stripExt (str "bogus.jpg"))).length < 3 ∧
      parseFilenameE (str "bogus.jpg") = .error .malformedFilename :=
  ⟨by decide, claim_C2_malformed_rejected (str "bogus.jpg") (by decide)⟩

/-- C3 is refuted by the code: the truthiness test `CATEGORIES[category]`
consults the prototype chain, so the non-enumeration first segment
"constructor" is NOT rejected — `parseFilename` returns a record for it —
and the later bucket push makes `groupByCategory` throw a `TypeError`
instead.  A first segment with no inherited property, such as "weird", is
still rejected with `UnknownCategory`. -/
theorem claim_C3_prototype_escape :
    parseFilenameE (str "constructor_01_x.jpg") =
        .ok ⟨str "constructor_01_x.jpg", str "constructor", some 1, str "x"⟩ ∧
      (∀ c : Cat, str "constructor" ≠ Cat.key c) ∧
      groupByCategory [str "constructor_01_x.jpg"] = .error .typeError ∧
      parseFilenameE (str "weird_x_Y.jpg") = .error .unknownCategory :=
  ⟨rfl, fun c => by cases c <;> decide, rfl, rfl⟩

/-- C4: the date heuristic resolves "Aug 2024 - First Lab Lunch" to year
2024, month index 7 and event "First Lab Lunch"; "2024 Lab Lunch" has no
month token and yields none; "Xyz 2024 - Event" matches the pattern shape
(last conjuncts) yet yields none because the explicit 12-entry month lookup
fails on "xyz". -/
theorem claim_C4_date_heuristic :
    parseDateFromDescription (str "Aug 2024 - First Lab Lunch") =
        some ⟨2024, 7, str "Aug", str "First Lab Lunch"⟩ ∧
      parseDateFromDescription (str "2024 Lab Lunch") = none ∧
      parseDateFromDescription (str "Xyz 2024 - Event") = none ∧
      matchDateRegex (str "Xyz 2024 - Event") =
        some (str "Xyz", str "2024", str "Event") ∧
      monthFromAbbrev (lowerStr (str "Xyz")) = none :=
  ⟨by decide, by decide, by decide, by decide, by decide⟩

/-- C7: on the empty input list the grouping returns (no exception) and
every enumeration category is present, mapped to the empty sequence; and in
general, whenever the grouping returns, a category no parsed item belongs to
is mapped to the empty sequence rather than dropped. -/
theorem claim_C7_empty_input_all_categories :
    ((groupByCategory ([] : List Str)).map (fun g => g Cat.conference) = .ok [] ∧
      (groupByCategory ([] : List Str)).map (fun g => g Cat.activity) = .ok [] ∧
      (groupByCategory ([] : List Str)).map (fun g => g Cat.lablife) = .ok [] ∧
      (groupByCategory ([] : List Str)).map (fun g => g Cat.campus) = .ok []) ∧
    ∀ (images : List Str) (c : Cat) (g : CatMap),
      groupByCategory images = .ok g →
      (∀ p ∈ images.filterMap parseFilename, p.category ≠ Cat.key c) →
        g c = [] := by
  refine ⟨⟨rfl, rfl, rfl, rfl⟩, fun images c g hg hnone => ?_⟩
  rw [(groupByCategory_ok_inv hg).2 c]
  have hb : rawBucket images c = [] := by
    unfold rawBucket
    rw [List.filter_eq_nil_iff]
    intro p hp
    simpa using hnone p hp
  rw [hb]
  rfl

/-- C1 counterexample: in the end-to-end scenario the filename
"weird_x_Y.jpg" is not included in any bucket — its first segment "weird" is
not an enumeration key, so `parseFilename` rejects it with `UnknownCategory`
— contradicting the claim that it is included with a non-numeric order. -/
theorem claim_C1_counterexample :
    parseFilenameE (str "weird_x_Y.jpg") = .error .unknownCategory ∧
      parseFilename (str "weird_x_Y.jpg") = none ∧
      (groupByCategory C1images).map (fun g => g Cat.conference) =
        .ok [⟨str "conference_01_A.jpg", str "conference", some 1, str "A"⟩,
             ⟨str "conference_02_B.jpg", str "conference", some 2, str "B"⟩] ∧
      (groupByCategory C1images).map (fun g => g Cat.activity) = .ok [] ∧
      (groupByCategory C1images).map (fun g => g Cat.lablife) = .ok [] ∧
      (groupByCategory C1images).map (fun g => g Cat.campus) = .ok [] :=
  ⟨rfl, rfl, rfl, rfl, rfl, rfl⟩

/-- C1 amended: the scenario input yields a conference sequence ordered
[A, B] (numeric order 01 before 02), drops bogus.jpg as malformed, and also
drops weird_x_Y.jpg as unknown-category, so every other bucket is empty. -/
theorem claim_C1_scenario :
    (groupByCategory C1images).map (fun g => g Cat.conference) =
        .ok [⟨str "conference_01_A.jpg", str "conference", some 1, str "A"⟩,
             ⟨str "conference_02_B.jpg", str "conference", some 2, str "B"⟩] ∧
      (groupByCategory C1images).map (fun g => g Cat.activity) = .ok [] ∧
      (groupByCategory C1images).map (fun g => g Cat.lablife) = .ok [] ∧
      (groupByCategory C1images).map (fun g => g Cat.campus) = .ok [] ∧
      parseFilenameE (str "bogus.jpg") = .error .malformedFilename ∧
      parseFilenameE (str "weird_x_Y.jpg") = .error .unknownCategory :=
  ⟨rfl, rfl, rfl, rfl, rfl, rfl⟩

/-- C6: for a filename of the shape category_order_description (with the
single-segment order and nothing for the extension-stripper to remove), the
parser rejoins all trailing segments with the delimiter, so the parsed
description equals the original description exactly, even when the
description itself contains the delimiter. -/
theorem claim_C6_description_roundtrip (c : Cat) (ord desc : Str)
    (hord : '_' ∉ ord)
    (hext : stripExt (Cat.key c ++ '_' :: (ord ++ '_' :: desc)) =
      Cat.key c ++ '_' :: (ord ++ '_' :: desc)) :
    parseFilename (Cat.key c ++ '_' :: (ord ++ '_' :: desc)) =
      some ⟨Cat.key c ++ '_' :: (ord ++ '_' :: desc), Cat.key c,
        jsParseInt ord, desc⟩ := by
  obtain ⟨p, ps, hps⟩ : ∃ p ps, splitU desc = p :: ps := by
    cases h : splitU desc with
    | nil => exact absurd h (splitU_ne_nil desc)
    | cons p ps => exact ⟨p, ps, rfl⟩
  have hsplit : splitU (Cat.key c ++ '_' :: (ord ++ '_' :: desc)) =
      Cat.key c :: ord :: splitU desc := by
    rw [splitU_append_of_not_mem _ (underscore_not_mem_key c),
      splitU_append_of_not_mem _ hord]
  have hjoin : joinU (splitU desc) = desc := joinU_splitU desc
  unfold parseFilename parseFilenameE parseAfterStrip
  rw [hext, hsplit, hps]
  simp only [List.length_cons, List.headD_cons, List.getD, List.drop]
  rw [if_neg (by omega), lowerStr_key, categoriesTruthy_key]
  rw [← hps, hjoin]
  rfl

/-- Witness for C6 at the delimiter-containing example of the
specification: lablife_12_Sep_2025_-_Dinner parses with description
"Sep_2025_-_Dinner". -/
theorem claim_C6_witness :
    parseFilename (str "lablife_12_Sep_2025_-_Dinner") =
      some ⟨str "lablife_12_Sep_2025_-_Dinner", str "lablife", some 12,
        str "Sep_2025_-_Dinner"⟩ := by
  have h := claim_C6_description_roundtrip Cat.lablife (str "12")
    (str "Sep_2025_-_Dinner") (by decide) (by decide)
  exact h

/-- C5: under the no-crash hypothesis (every accepted item's category is one
of the four own enumeration keys), a successfully parsed item whose
description yields no date is excluded from every bucket of the timeline
view, yet the grouping returns and the item appears in its category's bucket
of the category view — an asymmetric filter, not a rejection. -/
theorem claim_C5_asymmetric_filter {images : List Str} {f : Str}
    {it : ParsedItem}
    (hf : f ∈ images) (hp : parseFilename f = some it)
    (hd : parseDateFromDescription it.description = none)
    (hvalid : ∀ p ∈ images.filterMap parseFilename,
      (catOfKey p.category).isSome) :
    (∃ (c : Cat) (g : CatMap), catOfKey it.category = some c ∧
        groupByCategory images = .ok g ∧ it ∈ g c) ∧
      ∀ (y : Int) (m : Nat) (e : TimelineEntry),
        e ∈ groupByYearMonth images y m → e.item ≠ it := by
  constructor
  · have hmem : it ∈ images.filterMap parseFilename :=
      List.mem_filterMap.mpr ⟨f, hf, hp⟩
    obtain ⟨c, hc⟩ := Option.isSome_iff_exists.mp (hvalid it hmem)
    refine ⟨c, fun c2 => sortByOrder (rawBucket images c2), hc,
      groupByCategory_eq_ok images hvalid, ?_⟩
    refine mem_sortByOrder.mpr ?_
    unfold rawBucket
    refine List.mem_filter.mpr ⟨hmem, ?_⟩
    simp [eq_key_of_catOfKey hc]
  · intro y m e he heq
    have hdate := date_of_mem_groupByYearMonth he
    rw [heq, hd] at hdate
    exact Option.noConfusion hdate

/-- Witness for C5: "Wilson Library" carries no date, so the campus item is
in the category view while the grouping returns, and in no timeline
bucket. -/
theorem claim_C5_witness :
    (∃ (c : Cat) (g : CatMap),
        catOfKey (str "campus") = some c ∧
        groupByCategory [str "campus_02_Wilson Library.jpg"] = .ok g ∧
        (⟨str "campus_02_Wilson Library.jpg", str "campus", some 2,
          str "Wilson Library"⟩ : ParsedItem) ∈ g c) ∧
      ∀ (y : Int) (m : Nat) (e : TimelineEntry),
        e ∈ groupByYearMonth [str "campus_02_Wilson Library.jpg"] y m →
          e.item ≠ ⟨str "campus_02_Wilson Library.jpg", str "campus", some 2,
            str "Wilson Library"⟩ := by
  have h := @claim_C5_asymmetric_filter
    [str "campus_02_Wilson Library.jpg"]
    (str "campus_02_Wilson Library.jpg")
    ⟨str "campus_02_Wilson Library.jpg", str "campus", some 2,
      str "Wilson Library"⟩
    (List.mem_cons_self (str "campus_02_Wilson Library.jpg") [])
    (by decide) (by decide) (by decide)
  exact h

/-- C10 is refuted by the code: `parseFilename` accepts the first segment
"constructor" through the prototype chain of `CATEGORIES`, yet "constructor"
is no key of the enumeration, so the bucket lookup in `groupByCategory`
misses the four own keys and the push throws a `TypeError` — the accepted
record is counted by no bucket. -/
theorem claim_C10_lookup_misses :
    parseFilename (str "constructor_01_x.jpg") =
        some ⟨str "constructor_01_x.jpg", str "constructor", some 1, str "x"⟩ ∧
      catOfKey (str "constructor") = none ∧
      groupByCategory [str "constructor_01_x.jpg"] = .error .typeError :=
  ⟨rfl, rfl, rfl⟩

/-- C8: under the no-crash hypothesis and numeric orders, the grouping
returns, each category's sequence is sorted ascending by `order`, and the
sort is stable — two items of equal order keep, in the sorted bucket, the
relative position they had in the encounter-order bucket. -/
theorem claim_C8_sorted_stable (images : List Str) (c : Cat)
    (hvalid : ∀ p ∈ images.filterMap parseFilename,
      (catOfKey p.category).isSome)
    (hnum : ∀ it ∈ images.filterMap parseFilename, (it.order).isSome) :
    ∃ g : CatMap, groupByCategory images = .ok g ∧
      List.Pairwise ordLe (g c) ∧
      ∀ (a b : ParsedItem) (v : Int), a.order = some v → b.order = some v →
        [a, b].Sublist (rawBucket images c) → [a, b].Sublist (g c) := by
  refine ⟨fun c2 => sortByOrder (rawBucket images c2),
    groupByCategory_eq_ok images hvalid, ?_, ?_⟩
  · apply pairwise_ordLe_of_chain'
    · intro a ha
      have hm := mem_sortByOrder.mp ha
      unfold rawBucket at hm
      exact hnum a (List.mem_filter.mp hm).1
    · exact chain'_sortByOrder _
  · intro a b v hav hbv hsub
    have hfa : [a, b].filter (fun x => x.order == some v) = [a, b] := by
      simp [List.filter_cons, hav, hbv]
    have s1 := List.Sublist.filter (fun x => x.order == some v) hsub
    rw [hfa] at s1
    rw [← filter_sortByOrder v (rawBucket images c)] at s1
    exact s1.trans (List.filter_sublist _)

/-- Witness for C8 on a concrete list with two equal orders: the grouping
returns, the sorted conference bucket is ascending and the tied items keep
encounter order. -/
theorem claim_C8_witness :
    ∃ g : CatMap,
      groupByCategory [str "conference_02_C.jpg", str "conference_01_A.jpg",
        str "conference_01_B.jpg"] = .ok g ∧
      List.Pairwise ordLe (g Cat.conference) ∧
      ∀ (a b : ParsedItem) (v : Int), a.order = some v → b.order = some v →
        [a, b].Sublist (rawBucket [str "conference_02_C.jpg",
          str "conference_01_A.jpg", str "conference_01_B.jpg"]
          Cat.conference) →
        [a, b].Sublist (g Cat.conference) := by
  have h := claim_C8_sorted_stable [str "conference_02_C.jpg",
    str "conference_01_A.jpg", str "conference_01_B.jpg"] Cat.conference
    (by decide) (by decide)
  exact h

/-- Helper: two suffix candidates of the same list are suffix-comparable, so
a candidate that neither contains nor is contained in an actual suffix is no
suffix at all. -/
lemma suffix_exclusive {d e l : Str} (hd : d <:+ l)
    (h1 : ¬ e <:+ d) (h2 : ¬ d <:+ e) : ¬ e <:+ l := by
  intro he
  rcases Nat.le_total e.length d.length with h | h
  · exact h1 (List.suffix_of_suffix_length_le he hd h)
  · exact h2 (List.suffix_of_suffix_length_le hd he h)

/-- Helper: on a string that ends in one of the recognized dotted extensions,
the alternation search of `stripExt` finds exactly that extension (the five
candidates are pairwise suffix-incomparable). -/
lemma find?_knownExts {f e : Str} (he : e ∈ knownExts) (hsuf : e <:+ lowerStr f) :
    knownExts.find? (fun x => x.isSuffixOf (lowerStr f)) = some e := by
  have hmem : e = str ".jpg" ∨ e = str ".jpeg" ∨ e = str ".png" ∨
      e = str ".gif" ∨ e = str ".webp" := by simpa [knownExts] using he
  have bpos : e.isSuffixOf (lowerStr f) = true :=
    List.isSuffixOf_iff_suffix.mpr hsuf
  rcases hmem with rfl | rfl | rfl | rfl | rfl
  · simp only [knownExts, List.find?, bpos]
  · have n1 : ¬ str ".jpg" <:+ lowerStr f :=
      suffix_exclusive hsuf (by decide) (by decide)
    have b1 : (str ".jpg").isSuffixOf (lowerStr f) = false :=
      Bool.eq_false_iff.mpr (fun hc => n1 (List.isSuffixOf_iff_suffix.mp hc))
    simp only [knownExts, List.find?, b1, bpos]
  · have n1 : ¬ str ".jpg" <:+ lowerStr f :=
      suffix_exclusive hsuf (by decide) (by decide)
    have n2 : ¬ str ".jpeg" <:+ lowerStr f :=
      suffix_exclusive hsuf (by decide) (by decide)
    have b1 : (str ".jpg").isSuffixOf (lowerStr f) = false :=
      Bool.eq_false_iff.mpr (fun hc => n1 (List.isSuffixOf_iff_suffix.mp hc))
    have b2 : (str ".jpeg").isSuffixOf (lowerStr f) = false :=
      Bool.eq_false_iff.mpr (fun hc => n2 (List.isSuffixOf_iff_suffix.mp hc))
    simp only [knownExts, List.find?, b1, b2, bpos]
  · have n1 : ¬ str ".jpg" <:+ lowerStr f :=
      suffix_exclusive hsuf (by decide) (by decide)
    have n2 : ¬ str ".jpeg" <:+ lowerStr f :=
      suffix_exclusive hsuf (by decide) (by decide)
    have n3 : ¬ str ".png" <:+ lowerStr f :=
      suffix_exclusive hsuf (by decide) (by decide)
    have b1 : (str ".jpg").isSuffixOf (lowerStr f) = false :=
      Bool.eq_false_iff.mpr (fun hc => n1 (List.isSuffixOf_iff_suffix.mp hc))
    have b2 : (str ".jpeg").isSuffixOf (lowerStr f) = false :=
      Bool.eq_false_iff.mpr (fun hc => n2 (List.isSuffixOf_iff_suffix.mp hc))
    have b3 : (str ".png").isSuffixOf (lowerStr f) = false :=
      Bool.eq_false_iff.mpr (fun hc => n3 (List.isSuffixOf_iff_suffix.mp hc))
    simp only [knownExts, List.find?, b1, b2, b3, bpos]
  · have n1 : ¬ str ".jpg" <:+ lowerStr f :=
      suffix_exclusive hsuf (by decide) (by decide)
    have n2 : ¬ str ".jpeg" <:+ lowerStr f :=
      suffix_exclusive hsuf (by decide) (by decide)
    have n3 : ¬ str ".png" <:+ lowerStr f :=
      suffix_exclusive hsuf (by decide) (by decide)
    have n4 : ¬ str ".gif" <:+ lowerStr f :=
      suffix_exclusive hsuf (by decide) (by decide)
    have b1 : (str ".jpg").isSuffixOf (lowerStr f) = false :=
      Bool.eq_false_iff.mpr (fun hc => n1 (List.isSuffixOf_iff_suffix.mp hc))
    have b2 : (str ".jpeg").isSuffixOf (lowerStr f) = false :=
      Bool.eq_false_iff.mpr (fun hc => n2 (List.isSuffixOf_iff_suffix.mp hc))
    have b3 : (str ".png").isSuffixOf (lowerStr f) = false :=
      Bool.eq_false_iff.mpr (fun hc => n3 (List.isSuffixOf_iff_suffix.mp hc))
    have b4 : (str ".gif").isSuffixOf (lowerStr f) = false :=
      Bool.eq_false_iff.mpr (fun hc => n4 (List.isSuffixOf_iff_suffix.mp hc))
    simp only [knownExts, List.find?, b1, b2, b3, b4, bpos]

lemma lowerStr_append_dot (stem ext : Str) :
    lowerStr (stem ++ '.' :: ext) = lowerStr stem ++ '.' :: lowerStr ext := by
  have hdot : Char.toLower '.' = '.' := by decide
  rw [lowerStr, List.map_append, List.map_cons, hdot]
  rfl

/-- C9: the parser strips a recognized image-file extension (one of jpg,
jpeg, png, gif, webp, compared case-insensitively through lower-casing)
before splitting; when no recognized extension is present the string is left
unmodified and parsing proceeds on it rather than failing. -/
theorem claim_C9_extension_stripping :
    (∀ stem ext : Str,
        lowerStr ext ∈ [str "jpg", str "jpeg", str "png", str "gif", str "webp"] →
        stripExt (stem ++ '.' :: ext) = stem) ∧
      ∀ f : Str, (∀ e ∈ knownExts, ¬ e <:+ lowerStr f) →
        stripExt f = f ∧ parseFilenameE f = parseAfterStrip f f := by
  constructor
  · intro stem ext hmem
    have hlf := lowerStr_append_dot stem ext
    have hcase : lowerStr ext = str "jpg" ∨ lowerStr ext = str "jpeg" ∨
        lowerStr ext = str "png" ∨ lowerStr ext = str "gif" ∨
        lowerStr ext = str "webp" := by simpa using hmem
    rcases hcase with h | h | h | h | h
    · have hsuf : str ".jpg" <:+ lowerStr (stem ++ '.' :: ext) := by
        rw [hlf, h]
        exact List.suffix_append _ _
      have hextlen : ext.length = 3 := by
        have hl := congrArg List.length h
        rw [lowerStr, List.length_map] at hl
        exact hl.trans rfl
      rw [stripExt, find?_knownExts (by decide) hsuf]
      apply List.take_left'
      have h4 : (str ".jpg").length = 4 := rfl
      simp only [List.length_append, List.length_cons, hextlen, h4]
      omega
    · have hsuf : str ".jpeg" <:+ lowerStr (stem ++ '.' :: ext) := by
        rw [hlf, h]
        exact List.suffix_append _ _
      have hextlen : ext.length = 4 := by
        have hl := congrArg List.length h
        rw [lowerStr, List.length_map] at hl
        exact hl.trans rfl
      rw [stripExt, find?_knownExts (by decide) hsuf]
      apply List.take_left'
      have h5 : (str ".jpeg").length = 5 := rfl
      simp only [List.length_append, List.length_cons, hextlen, h5]
      omega
    · have hsuf : str ".png" <:+ lowerStr (stem ++ '.' :: ext) := by
        rw [hlf, h]
        exact List.suffix_append _ _
      have hextlen : ext.length = 3 := by
        have hl := congrArg List.length h
        rw [lowerStr, List.length_map] at hl
        exact hl.trans rfl
      rw [stripExt, find?_knownExts (by decide) hsuf]
      apply List.take_left'
      have h4 : (str ".png").length = 4 := rfl
      simp only [List.length_append, List.length_cons, hextlen, h4]
      omega
    · have hsuf : str ".gif" <:+ lowerStr (stem ++ '.' :: ext) := by
        rw [hlf, h]
        exact List.suffix_append _ _
      have hextlen : ext.length = 3 := by
        have hl := congrArg List.length h
        rw [lowerStr, List.length_map] at hl
        exact hl.trans rfl
      rw [stripExt, find?_knownExts (by decide) hsuf]
      apply List.take_left'
      have h4 : (str ".gif").length = 4 := rfl
      simp only [List.length_append, List.length_cons, hextlen, h4]
      omega
    · have hsuf : str ".webp" <:+ lowerStr (stem ++ '.' :: ext) := by
        rw [hlf, h]
        exact List.suffix_append _ _
      have hextlen : ext.length = 4 := by
        have hl := congrArg List.length h
        rw [lowerStr, List.length_map] at hl
        exact hl.trans rfl
      rw [stripExt, find?_knownExts (by decide) hsuf]
      apply List.take_left'
      have h5 : (str ".webp").length = 5 := rfl
      simp only [List.length_append, List.length_cons, hextlen, h5]
      omega
  · intro f hno
    have hfind : knownExts.find? (fun x => x.isSuffixOf (lowerStr f)) = none := by
      refine List.find?_eq_none.mpr (fun e he hc => ?_)
      exact hno e he (List.isSuffixOf_iff_suffix.mp hc)
    have hstrip : stripExt f = f := by
      rw [stripExt, hfind]
    refine ⟨hstrip, ?_⟩
    rw [parseFilenameE, hstrip]


end Gallery
